import Mathlib

/-!
Verification development for the flodym dimension-aware array algebra and
dynamic-stock engine.  The Python implementation of the library is not part of
the available sources (only its documentation, howto notebooks and packaging
metadata are), so the definitions below are shallow embeddings modelled from
the specification and from the in-repository documentation, as noted on each
definition.  Numeric values are modelled as rationals, so statements that the
specification phrases as holding "within floating tolerance" are proved as
exact identities.
-/

/-- Modelled from the spec: the error taxonomy of §7 (ValidationError,
ConflictError, NotFoundError, DimensionMismatchError, ConfigurationError,
AmbiguityError), raised synchronously; the Python sources are absent. -/
inductive FlodymError where
  | validationError
  | conflictError
  | notFoundError
  | dimensionMismatchError
  | configurationError
  | ambiguityError
deriving DecidableEq

/-- Modelled from the spec: a Dimension is an immutable lettered, ordered list
of unique index items (§3).  The human-readable name is omitted: no claim
depends on it, and with the letter and items it determines the dimension.
Items are modelled as integers (the claims use integer year items). -/
structure Dimension where
  letter : Char
  items : List Int
deriving DecidableEq

/-- Modelled from the spec: a DimensionSet is an ordered, letter-unique
collection of Dimensions (§3); the Python sources are absent. -/
structure DimensionSet where
  dim_list : List Dimension
deriving DecidableEq

/-- Letter-based order used as the canonical dimension ordering of the model. -/
def dimLe (x y : Dimension) : Prop := x.letter ≤ y.letter

instance : DecidableRel dimLe := fun x y =>
  (inferInstance : Decidable (x.letter ≤ y.letter))

instance : IsTotal Dimension dimLe := ⟨fun x y => le_total x.letter y.letter⟩

instance : IsTrans Dimension dimLe := ⟨fun _ _ _ h h' => le_trans h h'⟩

/-- Strict version of the canonical letter order, used to show that a
letter-unique dimension list has a unique sorted arrangement. -/
def dimLt (x y : Dimension) : Prop := x.letter < y.letter

instance : IsAntisymm Dimension dimLt :=
  ⟨fun _ _ h h' => absurd (lt_trans h h') (lt_irrefl _)⟩

/-- List-level union of two dimension lists: the first list, followed by the
dimensions of the second list whose letter is not present in the first. -/
def unionList (a b : List Dimension) : List Dimension :=
  a ++ b.filter (fun db => decide (∀ da ∈ a, da.letter ≠ db.letter))

/-- Modelled from the spec: the union of two DimensionSets, in canonical
order (§4.1, §4.2); the model uses the letter order as canonical order. -/
def DimensionSet.union_with (a b : DimensionSet) : DimensionSet :=
  ⟨List.insertionSort dimLe (unionList a.dim_list b.dim_list)⟩

/-- Modelled from the spec: unioning two DimensionSets containing the same
letter with differing item lists fails with a ConflictError (§4.1); the
Python sources are absent. -/
def DimensionSet.union (a b : DimensionSet) : Except FlodymError DimensionSet :=
  if ∀ da ∈ a.dim_list, ∀ db ∈ b.dim_list, da.letter = db.letter → da = db then
    .ok (a.union_with b)
  else
    .error .conflictError

/-- Modelled from the spec: a LabeledArray ("FlodymArray") pairs a numeric
array with the DimensionSet it is indexed over (§3).  The dense storage is
embedded as a function from letter-indexed coordinate assignments to values;
alignment of two arrays by dimension letter is thereby automatic, which is
exactly the bookkeeping the engine performs. -/
structure FlodymArray where
  dims : DimensionSet
  values : (Char → Nat) → ℚ

/-- Modelled from the spec: binary elementwise addition; the output dimension
set is the union of the operand dimension sets in canonical order, each
operand being broadcast over the axes it lacks (§4.2). -/
def FlodymArray.add (a b : FlodymArray) : Except FlodymError FlodymArray :=
  match a.dims.union b.dims with
  | .ok u => .ok ⟨u, fun idx => a.values idx + b.values idx⟩
  | .error e => .error e

/-- Iterated summation of a value function over all coordinates of the listed
dimensions. -/
def sumIdx : List Dimension → ((Char → Nat) → ℚ) → (Char → Nat) → ℚ
  | [], f, idx => f idx
  | d :: ds, f, idx =>
      ∑ i in Finset.range d.items.length, sumIdx ds f (Function.update idx d.letter i)

/-- Modelled from the spec: sum_over reduces by summation across the named
dimensions; the result has the remaining dimensions (§4.2). -/
def FlodymArray.sum_over (a : FlodymArray) (ls : List Char) : FlodymArray :=
  ⟨⟨a.dims.dim_list.filter (fun d => decide (d.letter ∉ ls))⟩,
   fun idx => sumIdx (a.dims.dim_list.filter (fun d => decide (d.letter ∈ ls))) a.values idx⟩

/-- Modelled from the spec: get_shares_over normalizes values along one
dimension so they sum to 1 per combination of the remaining dimensions;
zero-total slices yield zero, not an invalid value (§4.2). -/
def FlodymArray.get_shares_over (a : FlodymArray) (l : Char) : FlodymArray :=
  match a.dims.dim_list.find? (fun d => d.letter == l) with
  | none => a
  | some d =>
      ⟨a.dims, fun idx =>
        let total := ∑ i in Finset.range d.items.length,
          a.values (Function.update idx d.letter i)
        if total = 0 then 0 else a.values idx / total⟩

/-- Modelled from the spec: cast_to broadcasts an array with dims contained in
target_dims up to target_dims by repetition, and fails when dims is not a
subset of target_dims (§4.2). -/
def FlodymArray.cast_to (a : FlodymArray) (target : DimensionSet) : Except FlodymError FlodymArray :=
  if ∀ d ∈ a.dims.dim_list, d ∈ target.dim_list then
    .ok ⟨target, a.values⟩
  else
    .error .dimensionMismatchError

/-- Modelled from the spec: item-based indexing locates the Dimension holding
the item and collapses it; a missing item is a NotFoundError and an item found
in more than one dimension is an AmbiguityError (§4.2). -/
def FlodymArray.getItem (a : FlodymArray) (x : Int) : Except FlodymError FlodymArray :=
  match a.dims.dim_list.filter (fun d => d.items.contains x) with
  | [] => .error .notFoundError
  | [d] => .ok ⟨⟨a.dims.dim_list.erase d⟩,
      fun idx => a.values (Function.update idx d.letter (d.items.indexOf x))⟩
  | _ :: _ :: _ => .error .ambiguityError

/-- Modelled from the spec and the stocks howto in the repository sources:
the first dimension of a Stock's dimension set must be the time dimension,
identified by the letter t unless a different letter is supplied via the
time_letter argument; the Python sources are absent. -/
def stockDimsValid (dims : DimensionSet) (time_letter : Char) : Except FlodymError Unit :=
  match dims.dim_list with
  | [] => .error .validationError
  | d :: _ => if d.letter = time_letter then .ok () else .error .validationError

/-- Modelled from the spec: the interval bound between two consecutive time
items is their midpoint (§4.3 step 1); bound k separates time item k-1 from
time item k, for 1 ≤ k ≤ n-1. -/
def intervalBound (times : List Int) (k : Nat) : ℚ :=
  (((times.getD (k - 1) 0 : Int) : ℚ) + ((times.getD k 0 : Int) : ℚ)) / 2

/-- Modelled from the spec: the interval length of each time step, computed
from the midpoint bounds; the first and last interval lengths mirror their
nearest interior neighbor (§4.3 step 1). -/
def dtLen (times : List Int) (i : Nat) : ℚ :=
  let n := times.length
  let j := if i = 0 then 1 else if i = n - 1 then n - 2 else i
  intervalBound times (j + 1) - intervalBound times j

/-- Lower bound of the time interval around time item i; the first interval
extends below its item so that its length mirrors the second interval. -/
def lowerB (times : List Int) (i : Nat) : ℚ :=
  if i = 0 then intervalBound times 1 - dtLen times 0 else intervalBound times i

/-- Upper bound of the time interval around time item i; the last interval
extends above its item so that its length mirrors the second-to-last one. -/
def upperB (times : List Int) (i : Nat) : ℚ :=
  if i = times.length - 1 then intervalBound times (times.length - 1) + dtLen times (times.length - 1)
  else intervalBound times (i + 1)

/-- Modelled from the spec: where the inflow of a time step is assumed to
occur within its interval (§4.3, recognized values start, middle, end). -/
inductive InflowAt where
  | atStart
  | atMiddle
  | atEnd
deriving DecidableEq

/-- Modelled from the spec: sub-point k of interval i, at which a share of the
interval's inflow enters; for a single point per interval the position is
given by the inflow_at convention, otherwise the points are evenly spaced
quadrature points spanning the interval (§4.3 step 2). -/
def subPoint (times : List Int) (ia : InflowAt) (nPts : Nat) (i k : Nat) : ℚ :=
  if nPts = 1 then
    match ia with
    | .atStart => lowerB times i
    | .atMiddle => (lowerB times i + upperB times i) / 2
    | .atEnd => upperB times i
  else
    lowerB times i + ((2 * (k : ℚ) + 1) / (2 * (nPts : ℚ))) * (upperB times i - lowerB times i)

/-- Modelled from the spec: the survival table entry S i j is the average over
the sub-points of cohort i of the survival fraction at observation time j,
scaled by the interval length of i since flows are annualized rates
(§4.3 step 3). -/
def survTable (sf : ℚ → ℚ) (times : List Int) (nPts : Nat) (ia : InflowAt) (i j : Nat) : ℚ :=
  dtLen times i * ((1 : ℚ) / (nPts : ℚ)) *
    ∑ k in Finset.range nPts, sf (((times.getD j 0 : Int) : ℚ) - subPoint times ia nPts i k)

/-- Modelled from the spec: the Fixed lifetime model's survival function, a
step function that keeps the whole cohort until age L and none afterwards. -/
def fixedSF (L : ℚ) (age : ℚ) : ℚ :=
  if age < L then 1 else 0

/-- Contiguous unit-spaced time items 0, 1, ..., n-1. -/
def unitTimes (n : Nat) : List Int :=
  (List.range n).map Int.ofNat

/-- Modelled from the spec: SimpleFlowDrivenStock computes the stock as the
running cumulative sum over time of inflow minus outflow, with each step's
annualized net flow scaled by its interval length (§4.4 and the uneven time
spacing section of the stocks howto in the repository sources). -/
def simpleFlowDrivenStock (dt inflow outflow : Nat → ℚ) (j : Nat) : ℚ :=
  ∑ s in Finset.range (j + 1), (inflow s - outflow s) * dt s

/-- Survival of cohort i at the observation preceding j: at the entry step
itself the full annualized inflow of the interval is present. -/
def sPrev (S : Nat → Nat → ℚ) (dt : Nat → ℚ) (i j : Nat) : ℚ :=
  if j = i then dt i else S i (j - 1)

/-- Modelled from the spec: InflowDrivenDSM outflow at step j is the sum over
entry steps i ≤ j of the cohort mass leaving between consecutive observations,
expressed as an annualized rate of interval j (§4.4). -/
def inflowDrivenOutflow (S : Nat → Nat → ℚ) (dt : Nat → ℚ) (inflow : Nat → ℚ) (j : Nat) : ℚ :=
  (∑ i in Finset.range (j + 1), inflow i * (sPrev S dt i j - S i j)) / dt j

/-- Modelled from the spec: InflowDrivenDSM stock at step j is the sum over
entry steps i ≤ j of the surviving part of each cohort (§4.4). -/
def inflowDrivenStock (S : Nat → Nat → ℚ) (inflow : Nat → ℚ) (j : Nat) : ℚ :=
  ∑ i in Finset.range (j + 1), inflow i * S i j

/-- Stage n of the sequential stock-driven inflow solve: defines the inflows
of all steps below n; later stages extend earlier ones. -/
def solveStage (S : Nat → Nat → ℚ) (target : Nat → ℚ) : Nat → Nat → ℚ
  | 0, _ => 0
  | n + 1, j =>
      if j = n then
        (target n - ∑ i in Finset.range n, solveStage S target n i * S i n) / S n n
      else
        solveStage S target n j

/-- Modelled from the spec: StockDrivenDSM processes time steps in increasing
order; at each step the surviving portion of all previously known inflows is
subtracted from the target stock and the remainder is divided by the new
cohort's own same-period survival fraction (§4.4). -/
def stockDrivenInflow (S : Nat → Nat → ℚ) (target : Nat → ℚ) (j : Nat) : ℚ :=
  solveStage S target (j + 1) j

/-- Column k of the explicit inverse of the survival matrix: the inflow
sequence reproducing the unit stock target concentrated at step k. -/
def invSF (S : Nat → Nat → ℚ) (j k : Nat) : ℚ :=
  stockDrivenInflow S (fun m => if m = k then 1 else 0) j

/-- Modelled from the spec: the alternate StockDrivenDSM formulation obtains
the inflow via an explicit inverse relation on the survival matrix instead of
sequential subtraction (§4.4); n is the number of modelled time steps. -/
def stockDrivenInflowInvertSF (S : Nat → Nat → ℚ) (target : Nat → ℚ) (n j : Nat) : ℚ :=
  ∑ k in Finset.range n, invSF S j k * target k

/-- The change of a stock series at step j, with the stock before the first
step defined as zero. -/
def stockChange (stock : Nat → ℚ) (j : Nat) : ℚ :=
  stock j - if j = 0 then 0 else stock (j - 1)

/-- Modelled from the spec: check_stock_balance verifies the stock balance at
every time step and reports the violating steps rather than only pass or fail
(§4.4, §7); each non-time coordinate is checked independently. -/
def check_stock_balance (dt inflow outflow stock : Nat → ℚ) (n : Nat) : List Nat :=
  (List.range n).filter
    (fun j => decide (stockChange stock j ≠ (inflow j - outflow j) * dt j))

/-- The uneven time-item sequence used as the worked example in the spec and
in the stocks howto of the repository sources. -/
def times5 : List Int := [2000, 2005, 2010, 2020, 2030]

/-- C6: for every pair of DimensionSets that both contain a dimension with the
same letter but differing item lists, taking their union fails with a
ConflictError instead of silently truncating or reordering. -/
theorem union_conflict_on_same_letter (a b : DimensionSet)
    (h : ∃ da ∈ a.dim_list, ∃ db ∈ b.dim_list, da.letter = db.letter ∧ da.items ≠ db.items) :
    a.union b = .error .conflictError := by
  obtain ⟨da, hda, db, hdb, hl, hi⟩ := h
  unfold DimensionSet.union
  rw [if_neg]
  intro hall
  exact hi (congrArg Dimension.items (hall da hda db hdb hl))

/-- Witness for C6: two DimensionSets both defining letter t with different
item lists; their union is a ConflictError. -/
theorem union_conflict_on_same_letter_witness :
    (∃ da ∈ [Dimension.mk 't' [2010, 2020, 2030]], ∃ db ∈ [Dimension.mk 't' [2010, 2020]],
      da.letter = db.letter ∧ da.items ≠ db.items) ∧
    DimensionSet.union ⟨[Dimension.mk 't' [2010, 2020, 2030]]⟩ ⟨[Dimension.mk 't' [2010, 2020]]⟩
      = .error .conflictError := by
  refine ⟨by decide, union_conflict_on_same_letter _ _ (by decide)⟩

/-- C9: casting an array to its own dims is the identity, and casting to a
target dimension set that does not contain all of the array's dimensions
fails with a DimensionMismatchError. -/
theorem cast_to_identity_and_subset_check (a : FlodymArray) (target : DimensionSet)
    (h : ¬ ∀ d ∈ a.dims.dim_list, d ∈ target.dim_list) :
    a.cast_to a.dims = .ok a ∧ a.cast_to target = .error .dimensionMismatchError := by
  constructor
  · unfold FlodymArray.cast_to
    rw [if_pos (fun d hd => hd)]
  · unfold FlodymArray.cast_to
    rw [if_neg h]

/-- Witness for C9: a one-dimensional array casts to its own dims unchanged
and fails to cast to the empty dimension set. -/
theorem cast_to_identity_and_subset_check_witness :
    (¬ ∀ d ∈ (FlodymArray.mk ⟨[Dimension.mk 'r' [0]]⟩ (fun _ => 3)).dims.dim_list,
        d ∈ (DimensionSet.mk []).dim_list) ∧
    (FlodymArray.mk ⟨[Dimension.mk 'r' [0]]⟩ (fun _ => 3)).cast_to ⟨[Dimension.mk 'r' [0]]⟩
      = .ok (FlodymArray.mk ⟨[Dimension.mk 'r' [0]]⟩ (fun _ => 3)) ∧
    (FlodymArray.mk ⟨[Dimension.mk 'r' [0]]⟩ (fun _ => 3)).cast_to ⟨[]⟩
      = .error .dimensionMismatchError := by
  refine ⟨by decide, ?_, ?_⟩
  · exact (cast_to_identity_and_subset_check (FlodymArray.mk ⟨[Dimension.mk 'r' [0]]⟩ (fun _ => 3))
      ⟨[]⟩ (by decide)).1
  · exact (cast_to_identity_and_subset_check (FlodymArray.mk ⟨[Dimension.mk 'r' [0]]⟩ (fun _ => 3))
      ⟨[]⟩ (by decide)).2

/-- C10: a Stock's dimension configuration is accepted exactly when the first
dimension of its DimensionSet carries the time letter, which is t unless a
different letter is supplied via the time_letter argument. -/
theorem stock_accepts_iff_time_first (dims : DimensionSet) (tl : Char) :
    stockDimsValid dims tl = .ok () ↔
      ∃ d l, dims.dim_list = d :: l ∧ d.letter = tl := by
  unfold stockDimsValid
  constructor
  · intro h
    match hd : dims.dim_list with
    | [] => rw [hd] at h; simp at h
    | d :: l =>
      rw [hd] at h
      by_cases hl : d.letter = tl
      · exact ⟨d, l, rfl, hl⟩
      · simp [hl] at h
  · rintro ⟨d, l, hd, hl⟩
    rw [hd]
    simp [hl]

/-- Witness for C10: a dimension set whose first dimension has letter t is
accepted with the default time letter, and rejected when the time dimension
is not first. -/
theorem stock_accepts_iff_time_first_witness :
    stockDimsValid ⟨[Dimension.mk 't' [2000], Dimension.mk 'p' [0]]⟩ 't' = .ok () ∧
    ¬ stockDimsValid ⟨[Dimension.mk 'p' [0], Dimension.mk 't' [2000]]⟩ 't' = .ok () := by
  constructor
  · exact (stock_accepts_iff_time_first ⟨[Dimension.mk 't' [2000], Dimension.mk 'p' [0]]⟩ 't').mpr
      ⟨Dimension.mk 't' [2000], [Dimension.mk 'p' [0]], rfl, rfl⟩
  · intro h
    obtain ⟨d, l, hd, hl⟩ :=
      (stock_accepts_iff_time_first ⟨[Dimension.mk 'p' [0], Dimension.mk 't' [2000]]⟩ 't').mp h
    cases hd
    exact absurd hl (by decide)

/-- C7: item indexing returns the array with the dimension containing the
item collapsed and removed when the item occurs in exactly one dimension,
fails with a NotFoundError when it occurs in none, and fails with an
AmbiguityError when it occurs in more than one dimension. -/
theorem getitem_collapse_or_error (a : FlodymArray) (x : Int) :
    (a.dims.dim_list.countP (fun d => d.items.contains x) = 0 →
        a.getItem x = .error .notFoundError) ∧
    (2 ≤ a.dims.dim_list.countP (fun d => d.items.contains x) →
        a.getItem x = .error .ambiguityError) ∧
    (∀ d, a.dims.dim_list.filter (fun d => d.items.contains x) = [d] →
        a.getItem x = .ok ⟨⟨a.dims.dim_list.erase d⟩,
          fun idx => a.values (Function.update idx d.letter (d.items.indexOf x))⟩) := by
  refine ⟨?_, ?_, ?_⟩
  · intro h0
    rw [List.countP_eq_length_filter, List.length_eq_zero] at h0
    unfold FlodymArray.getItem
    rw [h0]
  · intro h2
    rw [List.countP_eq_length_filter] at h2
    unfold FlodymArray.getItem
    match hL : a.dims.dim_list.filter (fun d => d.items.contains x) with
    | [] => rw [hL] at h2; simp at h2
    | [e] => rw [hL] at h2; simp at h2
    | e1 :: e2 :: rest => rw [hL]
  · intro d hd
    unfold FlodymArray.getItem
    rw [hd]

/-- Witness for C7: an item in no dimension is a NotFoundError, an item in two
dimensions is an AmbiguityError, and an item in exactly one dimension
collapses that dimension out of the result. -/
theorem getitem_collapse_or_error_witness :
    ((FlodymArray.mk ⟨[Dimension.mk 'p' [1, 2]]⟩ (fun _ => 0)).getItem 5
        = .error .notFoundError) ∧
    ((FlodymArray.mk ⟨[Dimension.mk 'p' [7], Dimension.mk 'q' [7, 8]]⟩ (fun _ => 0)).getItem 7
        = .error .ambiguityError) ∧
    ((FlodymArray.mk ⟨[Dimension.mk 't' [10, 20], Dimension.mk 'p' [3, 4]]⟩ (fun _ => 0)).getItem 3
        = .ok ⟨⟨[Dimension.mk 't' [10, 20], Dimension.mk 'p' [3, 4]].erase (Dimension.mk 'p' [3, 4])⟩,
            fun idx => (fun _ => (0 : ℚ))
              (Function.update idx 'p' (List.indexOf (3 : Int) [3, 4]))⟩) := by
  refine ⟨(getitem_collapse_or_error (FlodymArray.mk ⟨[Dimension.mk 'p' [1, 2]]⟩ (fun _ => 0)) 5).1
      (by decide),
    (getitem_collapse_or_error
      (FlodymArray.mk ⟨[Dimension.mk 'p' [7], Dimension.mk 'q' [7, 8]]⟩ (fun _ => 0)) 7).2.1
      (by decide),
    (getitem_collapse_or_error
      (FlodymArray.mk ⟨[Dimension.mk 't' [10, 20], Dimension.mk 'p' [3, 4]]⟩ (fun _ => 0)) 3).2.2
      (Dimension.mk 'p' [3, 4]) (by decide)⟩

/-- C2: for a strictly increasing time-item sequence, interval bounds are the
midpoints between consecutive time items, interior interval lengths are the
distance between consecutive bounds, and the first and last interval lengths
mirror their nearest interior neighbor; for the time items
2000, 2005, 2010, 2020, 2030 the interval lengths are 5, 5, 7.5, 10, 10, and a
SimpleFlowDrivenStock with constant unit inflow and zero outflow has exactly
those stock increments, with cumulative stock 5, 10, 17.5, 27.5, 37.5. -/
theorem interval_lengths_and_uneven_time_example (times : List Int)
    (h3 : 3 ≤ times.length) (hinc : List.Pairwise (· < ·) times)
    (i : Nat) (h1 : 1 ≤ i) (h2 : i + 1 < times.length) :
    (intervalBound times i
        = (((times.getD (i - 1) 0 : Int) : ℚ) + ((times.getD i 0 : Int) : ℚ)) / 2) ∧
    (dtLen times i = intervalBound times (i + 1) - intervalBound times i) ∧
    (dtLen times 0 = dtLen times 1) ∧
    (dtLen times (times.length - 1) = dtLen times (times.length - 2)) ∧
    ((List.range 5).map (dtLen times5) = [5, 5, 15/2, 10, 10]) ∧
    ((List.range 5).map (simpleFlowDrivenStock (dtLen times5) (fun _ => 1) (fun _ => 0))
        = [5, 10, 35/2, 55/2, 75/2]) ∧
    ((List.range 5).map (stockChange (simpleFlowDrivenStock (dtLen times5) (fun _ => 1) (fun _ => 0)))
        = [5, 5, 15/2, 10, 10]) := by
  have hi0 : i ≠ 0 := by omega
  have hin : i ≠ times.length - 1 := by omega
  have h1n : (1 : Nat) ≠ times.length - 1 := by omega
  have hl0 : times.length - 1 ≠ 0 := by omega
  have hl2 : times.length - 2 ≠ 0 := by omega
  have hl3 : times.length - 2 ≠ times.length - 1 := by omega
  refine ⟨rfl, ?_, ?_, ?_, ?_, ?_, ?_⟩
  · simp [dtLen, hi0, hin]
  · simp [dtLen, h1n]
  · simp [dtLen, hl0, hl2, hl3]
  · rw [show List.range 5 = [0, 1, 2, 3, 4] from rfl]
    norm_num [dtLen, times5, intervalBound, List.getD]
  · rw [show List.range 5 = [0, 1, 2, 3, 4] from rfl]
    norm_num [simpleFlowDrivenStock, Finset.sum_range_succ, dtLen, times5, intervalBound,
      List.getD]
  · rw [show List.range 5 = [0, 1, 2, 3, 4] from rfl]
    norm_num [stockChange, simpleFlowDrivenStock, Finset.sum_range_succ, dtLen, times5,
      intervalBound, List.getD]

/-- Witness for C2: the worked uneven sequence is strictly increasing, long
enough, and its interior interval length at step 2 equals the distance of the
neighboring bounds. -/
theorem interval_lengths_and_uneven_time_example_witness :
    (3 ≤ times5.length) ∧ List.Pairwise (· < ·) times5 ∧ (1 ≤ 2) ∧ (2 + 1 < times5.length) ∧
    (dtLen times5 2 = intervalBound times5 3 - intervalBound times5 2) := by
  refine ⟨by decide, by decide, by decide, by decide,
    (interval_lengths_and_uneven_time_example times5 (by decide) (by decide) 2 (by decide)
      (by decide)).2.1⟩

/-- Membership in the list-level union. -/
theorem mem_unionList {a b : List Dimension} {x : Dimension} :
    x ∈ unionList a b ↔ x ∈ a ∨ (x ∈ b ∧ ∀ da ∈ a, da.letter ≠ x.letter) := by
  simp [unionList, List.mem_append, List.mem_filter]

/-- The union of two letter-unique dimension lists has no duplicate entries. -/
theorem nodup_unionList {a b : List Dimension}
    (ha : (a.map Dimension.letter).Nodup) (hb : (b.map Dimension.letter).Nodup) :
    (unionList a b).Nodup := by
  refine List.Nodup.append (ha.of_map _) ((hb.of_map _).filter _) ?_
  intro x hxa hxf
  obtain ⟨-, hcond⟩ := List.mem_filter.mp hxf
  exact (of_decide_eq_true hcond) x hxa rfl

/-- The union of two letter-unique dimension lists is letter-unique. -/
theorem nodup_letters_unionList {a b : List Dimension}
    (ha : (a.map Dimension.letter).Nodup) (hb : (b.map Dimension.letter).Nodup) :
    ((unionList a b).map Dimension.letter).Nodup := by
  unfold unionList
  rw [List.map_append]
  refine List.Nodup.append ha (((List.filter_sublist _).map _).nodup hb) ?_
  intro c hca hcf
  obtain ⟨da, hda, hdal⟩ := List.mem_map.mp hca
  obtain ⟨db, hdbf, hdbl⟩ := List.mem_map.mp hcf
  obtain ⟨-, hcond⟩ := List.mem_filter.mp hdbf
  exact (of_decide_eq_true hcond) da hda (hdal.trans hdbl.symm)

/-- When shared letters carry equal dimensions, the two orders of the
list-level union contain the same dimensions. -/
theorem mem_unionList_swap {a b : List Dimension}
    (hcompat : ∀ da ∈ a, ∀ db ∈ b, da.letter = db.letter → da = db) {x : Dimension}
    (hx : x ∈ unionList a b) : x ∈ unionList b a := by
  rw [mem_unionList] at hx
  rw [mem_unionList]
  rcases hx with hxa | ⟨hxb, hno⟩
  · by_cases hex : ∃ db ∈ b, db.letter = x.letter
    · obtain ⟨db, hdb, hl⟩ := hex
      exact Or.inl ((hcompat x hxa db hdb hl.symm) ▸ hdb)
    · exact Or.inr ⟨hxa, fun db hdb h => hex ⟨db, hdb, h⟩⟩
  · exact Or.inl hxb

/-- A letter-unique sorted dimension list is sorted for the strict order. -/
theorem sorted_dimLt_of_sorted_dimLe {l : List Dimension}
    (hs : List.Sorted dimLe l) (hn : (l.map Dimension.letter).Nodup) :
    List.Sorted dimLt l := by
  have hne : l.Pairwise (fun x y : Dimension => x.letter ≠ y.letter) :=
    List.pairwise_map.mp hn
  exact (List.Pairwise.and hs hne).imp (fun h => lt_of_le_of_ne h.1 h.2)

/-- Sorting two permuted letter-unique dimension lists gives the same list. -/
theorem insertionSort_eq_of_perm {l1 l2 : List Dimension}
    (h : l1.Perm l2) (h1 : (l1.map Dimension.letter).Nodup) :
    List.insertionSort dimLe l1 = List.insertionSort dimLe l2 := by
  have p1 := List.perm_insertionSort dimLe l1
  have p2 := List.perm_insertionSort dimLe l2
  have n1 : ((List.insertionSort dimLe l1).map Dimension.letter).Nodup :=
    ((p1.map Dimension.letter).nodup_iff).mpr h1
  have h2 : (l2.map Dimension.letter).Nodup := ((h.map Dimension.letter).nodup_iff).mp h1
  have n2 : ((List.insertionSort dimLe l2).map Dimension.letter).Nodup :=
    ((p2.map Dimension.letter).nodup_iff).mpr h2
  exact List.eq_of_perm_of_sorted (p1.trans (h.trans p2.symm))
    (sorted_dimLt_of_sorted_dimLe (List.sorted_insertionSort dimLe l1) n1)
    (sorted_dimLt_of_sorted_dimLe (List.sorted_insertionSort dimLe l2) n2)

/-- C5: for arrays whose shared dimension letters carry identical item lists,
addition is commutative, including the inferred output dimension order: both
operand orders succeed and produce the same dims in canonical order and the
same values. -/
theorem add_commutative (a b : FlodymArray)
    (ha : (a.dims.dim_list.map Dimension.letter).Nodup)
    (hb : (b.dims.dim_list.map Dimension.letter).Nodup)
    (hcompat : ∀ da ∈ a.dims.dim_list, ∀ db ∈ b.dims.dim_list,
      da.letter = db.letter → da = db) :
    ∃ r, a.add b = .ok r ∧ b.add a = .ok r := by
  have hcompat' : ∀ db ∈ b.dims.dim_list, ∀ da ∈ a.dims.dim_list,
      db.letter = da.letter → db = da :=
    fun db hdb da hda h => (hcompat da hda db hdb h.symm).symm
  have hperm : (unionList a.dims.dim_list b.dims.dim_list).Perm
      (unionList b.dims.dim_list a.dims.dim_list) := by
    refine List.perm_of_nodup_nodup_toFinset_eq (nodup_unionList ha hb)
      (nodup_unionList hb ha) ?_
    ext x
    simp only [List.mem_toFinset]
    exact ⟨mem_unionList_swap hcompat, mem_unionList_swap hcompat'⟩
  have hdims : DimensionSet.union_with a.dims b.dims = DimensionSet.union_with b.dims a.dims := by
    unfold DimensionSet.union_with
    exact congrArg DimensionSet.mk
      (insertionSort_eq_of_perm hperm (nodup_letters_unionList ha hb))
  refine ⟨⟨a.dims.union_with b.dims, fun idx => a.values idx + b.values idx⟩, ?_, ?_⟩
  · unfold FlodymArray.add DimensionSet.union
    rw [if_pos hcompat]
  · unfold FlodymArray.add DimensionSet.union
    rw [if_pos hcompat']
    rw [hdims]
    exact congrArg Except.ok
      (congrArg (FlodymArray.mk (b.dims.union_with a.dims))
        (funext fun idx => add_comm (b.values idx) (a.values idx)))

/-- Witness for C5: adding a one-dimensional time array and a one-dimensional
product array in either order gives the same result. -/
theorem add_commutative_witness :
    ∃ r, (FlodymArray.mk ⟨[Dimension.mk 't' [1, 2]]⟩ (fun idx => idx 't')).add
        (FlodymArray.mk ⟨[Dimension.mk 'p' [5]]⟩ (fun _ => 2)) = .ok r ∧
      (FlodymArray.mk ⟨[Dimension.mk 'p' [5]]⟩ (fun _ => 2)).add
        (FlodymArray.mk ⟨[Dimension.mk 't' [1, 2]]⟩ (fun idx => idx 't')) = .ok r :=
  add_commutative (FlodymArray.mk ⟨[Dimension.mk 't' [1, 2]]⟩ (fun idx => idx 't'))
    (FlodymArray.mk ⟨[Dimension.mk 'p' [5]]⟩ (fun _ => 2))
    (by decide) (by decide) (by decide)

/-- Updating the same letter twice keeps only the later index. -/
theorem update_update (f : Char → Nat) (a : Char) (b c : Nat) :
    Function.update (Function.update f a b) a c = Function.update f a c := by
  funext x
  rcases eq_or_ne x a with rfl | h
  · simp
  · simp [Function.update_noteq h]

/-- In a letter-unique dimension list, searching for the letter of a member
finds exactly that member. -/
theorem find_letter_eq {ds : List Dimension} {d : Dimension}
    (hn : (ds.map Dimension.letter).Nodup) (hd : d ∈ ds) :
    ds.find? (fun e => e.letter == d.letter) = some d := by
  induction ds with
  | nil => cases hd
  | cons e tail ih =>
    rw [List.map_cons, List.nodup_cons] at hn
    rcases List.mem_cons.mp hd with rfl | hdt
    · rw [List.find?_cons_of_pos _ (by simp)]
    · have hne : e.letter ≠ d.letter := by
        intro h
        exact hn.1 (h ▸ List.mem_map_of_mem Dimension.letter hdt)
      rw [List.find?_cons_of_neg _ (by simp [hne])]
      exact ih hn.2 hdt

/-- In a letter-unique dimension list, filtering by the letter of a member
keeps exactly that member. -/
theorem filter_letter_eq {ds : List Dimension} {d : Dimension}
    (hn : (ds.map Dimension.letter).Nodup) (hd : d ∈ ds) :
    ds.filter (fun e => decide (e.letter ∈ [d.letter])) = [d] := by
  induction ds with
  | nil => cases hd
  | cons e tail ih =>
    rw [List.map_cons, List.nodup_cons] at hn
    rcases List.mem_cons.mp hd with rfl | hdt
    · rw [List.filter_cons_of_pos (by simp)]
      have htail : tail.filter (fun x => decide (x.letter ∈ [d.letter])) = [] := by
        rw [List.filter_eq_nil_iff]
        intro x hx
        simp only [List.mem_singleton, decide_eq_true_eq]
        intro hxe
        exact hn.1 (hxe ▸ List.mem_map_of_mem Dimension.letter hx)
      rw [htail]
    · have hne : e.letter ≠ d.letter := by
        intro h
        exact hn.1 (h ▸ List.mem_map_of_mem Dimension.letter hdt)
      rw [List.filter_cons_of_neg (by simp [hne])]
      exact ih hn.2 hdt

/-- C4 (amended): for every array, every dimension d of it and every
coordinate, get_shares_over of d followed by sum_over of d yields 1 wherever
the slice along d has a nonzero total, and get_shares_over yields 0 wherever
the slice along d sums to zero, so no invalid value is produced. -/
theorem get_shares_over_normalization (a : FlodymArray) (d : Dimension)
    (hn : (a.dims.dim_list.map Dimension.letter).Nodup) (hd : d ∈ a.dims.dim_list)
    (idx : Char → Nat) :
    ((∑ i in Finset.range d.items.length, a.values (Function.update idx d.letter i)) = 0 →
      (a.get_shares_over d.letter).values idx = 0) ∧
    ((∑ i in Finset.range d.items.length, a.values (Function.update idx d.letter i)) ≠ 0 →
      ((a.get_shares_over d.letter).sum_over [d.letter]).values idx = 1) := by
  have hfind : a.dims.dim_list.find? (fun e => e.letter == d.letter) = some d :=
    find_letter_eq hn hd
  have hval : ∀ jdx : Char → Nat, (a.get_shares_over d.letter).values jdx
      = if (∑ i in Finset.range d.items.length, a.values (Function.update jdx d.letter i)) = 0
        then 0
        else a.values jdx
          / (∑ i in Finset.range d.items.length, a.values (Function.update jdx d.letter i)) := by
    intro jdx
    unfold FlodymArray.get_shares_over
    rw [hfind]
  have hdims : (a.get_shares_over d.letter).dims = a.dims := by
    unfold FlodymArray.get_shares_over
    rw [hfind]
  constructor
  · intro h0
    rw [hval idx, if_pos h0]
  · intro hne
    have hsum : ((a.get_shares_over d.letter).sum_over [d.letter]).values idx
        = ∑ j in Finset.range d.items.length,
            (a.get_shares_over d.letter).values (Function.update idx d.letter j) := by
      unfold FlodymArray.sum_over
      rw [hdims, filter_letter_eq hn hd]
      simp only [sumIdx]
    rw [hsum]
    have hterm : ∀ j ∈ Finset.range d.items.length,
        (a.get_shares_over d.letter).values (Function.update idx d.letter j)
          = a.values (Function.update idx d.letter j)
            / (∑ i in Finset.range d.items.length, a.values (Function.update idx d.letter i)) := by
      intro j _
      rw [hval (Function.update idx d.letter j)]
      have harg : ∀ i : Nat,
          Function.update (Function.update idx d.letter j) d.letter i
            = Function.update idx d.letter i := fun i => update_update idx d.letter j i
      rw [Finset.sum_congr rfl (fun i _ => by rw [harg i])]
      rw [if_neg hne]
    rw [Finset.sum_congr rfl hterm, ← Finset.sum_div, div_self hne]

/-- Counterexample for C4: a one-dimensional array with values 1 and -1 has a
slice that is not all zero, yet its shares sum to 0, not 1, because the slice
total is zero. -/
theorem get_shares_over_counterexample :
    ((FlodymArray.mk ⟨[Dimension.mk 'x' [0, 1]]⟩
        (fun idx => if idx 'x' = 0 then 1 else -1)).values (fun _ => 0) ≠ 0) ∧
    (((FlodymArray.mk ⟨[Dimension.mk 'x' [0, 1]]⟩
        (fun idx => if idx 'x' = 0 then 1 else -1)).get_shares_over 'x').sum_over ['x']).values
      (fun _ => 0) = 0 ∧
    (((FlodymArray.mk ⟨[Dimension.mk 'x' [0, 1]]⟩
        (fun idx => if idx 'x' = 0 then 1 else -1)).get_shares_over 'x').sum_over ['x']).values
      (fun _ => 0) ≠ 1 := by
  refine ⟨by norm_num, ?_, ?_⟩ <;>
    norm_num [FlodymArray.get_shares_over, FlodymArray.sum_over, sumIdx, List.find?,
      Finset.sum_range_succ, Function.update]

/-- Witness for C4: an all-ones array over one dimension of two items has
shares that sum to exactly 1. -/
theorem get_shares_over_normalization_witness :
    (((FlodymArray.mk ⟨[Dimension.mk 'x' [0, 1]]⟩ (fun _ => 1)).dims.dim_list.map
        Dimension.letter).Nodup) ∧
    (Dimension.mk 'x' [0, 1] ∈ (FlodymArray.mk ⟨[Dimension.mk 'x' [0, 1]]⟩
        (fun _ => 1)).dims.dim_list) ∧
    ((∑ i in Finset.range (Dimension.mk 'x' [0, 1]).items.length,
        (FlodymArray.mk ⟨[Dimension.mk 'x' [0, 1]]⟩ (fun _ => 1)).values
          (Function.update (fun _ => 0) 'x' i)) ≠ 0) ∧
    (((FlodymArray.mk ⟨[Dimension.mk 'x' [0, 1]]⟩ (fun _ => 1)).get_shares_over 'x').sum_over
        ['x']).values (fun _ => 0) = 1 := by
  refine ⟨by decide, by decide, by norm_num [Finset.sum_range_succ], ?_⟩
  exact (get_shares_over_normalization (FlodymArray.mk ⟨[Dimension.mk 'x' [0, 1]]⟩ (fun _ => 1))
    (Dimension.mk 'x' [0, 1]) (by decide) (by decide) (fun _ => 0)).2
    (by norm_num [Finset.sum_range_succ])

/-- Later solve stages agree with earlier ones on the steps already solved. -/
theorem solveStage_stable (S : Nat → Nat → ℚ) (t : Nat → ℚ) :
    ∀ n j : Nat, j < n → solveStage S t n j = stockDrivenInflow S t j := by
  intro n
  induction n with
  | zero => intro j hj; cases hj
  | succ n ih =>
    intro j hj
    rcases eq_or_ne j n with rfl | hne
    · rfl
    · have hj' : j < n := by omega
      simp only [solveStage, if_neg hne]
      exact ih j hj'

/-- The recurrence satisfied by the sequential stock-driven inflow solve. -/
theorem stockDrivenInflow_eq (S : Nat → Nat → ℚ) (t : Nat → ℚ) (j : Nat) :
    stockDrivenInflow S t j
      = (t j - ∑ i in Finset.range j, stockDrivenInflow S t i * S i j) / S j j := by
  have h1 : stockDrivenInflow S t j
      = (t j - ∑ i in Finset.range j, solveStage S t j i * S i j) / S j j := by
    unfold stockDrivenInflow
    simp [solveStage]
  rw [h1, Finset.sum_congr rfl
    (fun i hi => by rw [solveStage_stable S t j i (Finset.mem_range.mp hi)])]

/-- The sequential stock-driven inflows reproduce the target stock. -/
theorem stockDriven_system (S : Nat → Nat → ℚ) (t : Nat → ℚ) (j : Nat) (hjj : S j j ≠ 0) :
    inflowDrivenStock S (stockDrivenInflow S t) j = t j := by
  unfold inflowDrivenStock
  rw [Finset.sum_range_succ]
  rw [stockDrivenInflow_eq S t j]
  rw [div_mul_cancel₀ _ hjj]
  ring

/-- C3: computing the stock of an arbitrary inflow series with the
inflow-driven DSM and then running the stock-driven DSM on that stock with
the same survival table recovers the original inflow series, provided each
cohort has a nonzero same-period survival fraction, as the stock-driven
division step presupposes. -/
theorem inflow_stock_roundtrip (S : Nat → Nat → ℚ) (inflow : Nat → ℚ) (j : Nat)
    (hdiag : ∀ i, i ≤ j → S i i ≠ 0) :
    stockDrivenInflow S (inflowDrivenStock S inflow) j = inflow j := by
  induction j using Nat.strong_induction_on with
  | _ j ih =>
    rw [stockDrivenInflow_eq]
    rw [Finset.sum_congr rfl (fun i hi => by
      rw [ih i (Finset.mem_range.mp hi)
        (fun m hm => hdiag m (le_trans hm (le_of_lt (Finset.mem_range.mp hi))))])]
    have hstock : inflowDrivenStock S inflow j
        = ∑ i in Finset.range j, inflow i * S i j + inflow j * S j j := by
      unfold inflowDrivenStock
      rw [Finset.sum_range_succ]
    rw [hstock, add_sub_cancel_left, mul_div_cancel_right₀ _ (hdiag j le_rfl)]

/-- Witness for C3: with a constant survival table of ones and the inflow
series j + 1, the stock-driven solve on the inflow-driven stock returns the
inflow at step 2. -/
theorem inflow_stock_roundtrip_witness :
    (∀ i, i ≤ 2 → (fun _ _ : Nat => (1 : ℚ)) i i ≠ 0) ∧
    stockDrivenInflow (fun _ _ => 1)
      (inflowDrivenStock (fun _ _ => 1) (fun j => (j : ℚ) + 1)) 2 = (2 : ℚ) + 1 := by
  refine ⟨fun i _ => one_ne_zero, ?_⟩
  exact inflow_stock_roundtrip (fun _ _ => 1) (fun j => (j : ℚ) + 1) 2 (fun i _ => one_ne_zero)

/-- Entry k of the contiguous unit time grid is k. -/
theorem unitTimes_getD {n k : Nat} (h : k < n) : (unitTimes n).getD k 0 = (k : Int) := by
  unfold unitTimes
  rw [List.getD_eq_getElem?_getD, List.getElem?_map, List.getElem?_range h]
  rfl

/-- The unit time grid has n entries. -/
theorem unitTimes_length (n : Nat) : (unitTimes n).length = n := by
  rw [unitTimes, List.length_map, List.length_range]

/-- Interval bounds of the unit time grid sit half a step below each item. -/
theorem unitTimes_intervalBound {n k : Nat} (h1 : 1 ≤ k) (h2 : k < n) :
    intervalBound (unitTimes n) k = (k : ℚ) - 1/2 := by
  unfold intervalBound
  rw [unitTimes_getD (show k - 1 < n by omega), unitTimes_getD h2]
  rw [show ((k - 1 : Nat) : Int) = (k : Int) - 1 by omega]
  push_cast
  ring

/-- Neighboring bounds of the unit time grid are one step apart. -/
theorem unitTimes_bound_diff {n j : Nat} (h1 : 1 ≤ j) (h2 : j + 1 < n) :
    intervalBound (unitTimes n) (j + 1) - intervalBound (unitTimes n) j = 1 := by
  rw [unitTimes_intervalBound (by omega) (by omega), unitTimes_intervalBound h1 (by omega)]
  push_cast
  ring

/-- All interval lengths of the unit time grid equal one. -/
theorem unitTimes_dtLen {n i : Nat} (h3 : 3 ≤ n) (hi : i < n) :
    dtLen (unitTimes n) i = 1 := by
  simp only [dtLen]
  rw [unitTimes_length]
  rcases eq_or_ne i 0 with rfl | hi0
  · rw [if_pos rfl]
    exact unitTimes_bound_diff (le_refl 1) (by omega)
  · rw [if_neg hi0]
    rcases eq_or_ne i (n - 1) with rfl | hin
    · rw [if_pos rfl]
      exact unitTimes_bound_diff (by omega) (by omega)
    · rw [if_neg hin]
      exact unitTimes_bound_diff (by omega) (by omega)

/-- Lower interval bounds of the unit time grid. -/
theorem unitTimes_lowerB {n i : Nat} (h3 : 3 ≤ n) (hi : i < n) :
    lowerB (unitTimes n) i = (i : ℚ) - 1/2 := by
  unfold lowerB
  rcases eq_or_ne i 0 with rfl | h0
  · rw [if_pos rfl, unitTimes_intervalBound (le_refl 1) (by omega), unitTimes_dtLen h3 (by omega)]
    norm_num
  · rw [if_neg h0, unitTimes_intervalBound (by omega) hi]

/-- Upper interval bounds of the unit time grid. -/
theorem unitTimes_upperB {n i : Nat} (h3 : 3 ≤ n) (hi : i < n) :
    upperB (unitTimes n) i = (i : ℚ) + 1/2 := by
  unfold upperB
  rw [unitTimes_length]
  rcases eq_or_ne i (n - 1) with rfl | hin
  · rw [if_pos rfl, unitTimes_intervalBound (by omega) (by omega), unitTimes_dtLen h3 (by omega)]
    ring
  · rw [if_neg hin, unitTimes_intervalBound (by omega) (by omega)]
    push_cast
    ring

/-- With one point per interval placed at the middle, the sub-point of each
unit interval is its time item. -/
theorem unitTimes_subPoint_middle {n i : Nat} (h3 : 3 ≤ n) (hi : i < n) :
    subPoint (unitTimes n) .atMiddle 1 i 0 = (i : ℚ) := by
  unfold subPoint
  rw [if_pos rfl]
  show (lowerB (unitTimes n) i + upperB (unitTimes n) i) / 2 = (i : ℚ)
  rw [unitTimes_lowerB h3 hi, unitTimes_upperB h3 hi]
  ring

/-- The survival table of a Fixed lifetime model on the unit grid is the step
indicator of ages below the lifetime. -/
theorem fixed_survTable {L : ℚ} {n i j : Nat} (h3 : 3 ≤ n) (hi : i < n) (hj : j < n) :
    survTable (fixedSF L) (unitTimes n) 1 .atMiddle i j
      = if ((j : ℚ) - (i : ℚ)) < L then 1 else 0 := by
  unfold survTable
  rw [unitTimes_dtLen h3 hi, Finset.sum_range_one, unitTimes_getD hj,
    unitTimes_subPoint_middle h3 hi]
  unfold fixedSF
  push_cast
  norm_num

/-- C8: for an inflow-driven DSM on a contiguous unit-spaced time grid with a
Fixed lifetime model of positive value L and a single unit inflow at time 0,
the outflow equals 1 at exactly the first time step that is at least L steps
after time 0 and equals 0 at every other time step. -/
theorem fixed_lifetime_delta_outflow (L : ℚ) (n j : Nat)
    (hL : 0 < L) (h3 : 3 ≤ n) (hj : j < n) :
    inflowDrivenOutflow (survTable (fixedSF L) (unitTimes n) 1 .atMiddle)
        (dtLen (unitTimes n)) (fun m => if m = 0 then 1 else 0) j
      = if (L ≤ (j : ℚ) ∧ ∀ m : Nat, m < j → ¬ L ≤ (m : ℚ)) then 1 else 0 := by
  unfold inflowDrivenOutflow
  rw [Finset.sum_eq_single_of_mem 0 (Finset.mem_range.mpr (Nat.succ_pos j))
    (fun i _ hi => by simp [hi])]
  rw [show ((fun m => if m = 0 then (1 : ℚ) else 0) 0) = 1 from by norm_num, one_mul,
    unitTimes_dtLen h3 hj, div_one]
  unfold sPrev
  cases j with
  | zero =>
    rw [if_pos rfl, unitTimes_dtLen h3 (by omega), fixed_survTable h3 (by omega) (by omega)]
    rw [if_pos (by norm_num [hL])]
    rw [if_neg (fun h => absurd h.1 (not_le.mpr (by exact_mod_cast hL)))]
    norm_num
  | succ k =>
    rw [if_neg (Nat.succ_ne_zero k), Nat.succ_sub_one]
    rw [fixed_survTable h3 (by omega) (show k < n by omega)]
    rw [fixed_survTable h3 (by omega) (show k + 1 < n by omega)]
    rcases le_or_lt L (k : ℚ) with hLk | hkL
    · rw [if_neg (by push_cast; linarith)]
      rw [if_neg (by push_cast; linarith)]
      rw [if_neg (fun h => (h.2 k (by omega)) hLk)]
      norm_num
    · rw [if_pos (by push_cast; linarith)]
      rcases le_or_lt L ((k : ℚ) + 1) with hLj | hjL
      · rw [if_neg (by push_cast; linarith)]
        rw [if_pos ⟨by push_cast; linarith, fun m hm => not_le.mpr
          (lt_of_le_of_lt (show (m : ℚ) ≤ (k : ℚ) by exact_mod_cast Nat.lt_succ_iff.mp hm) hkL)⟩]
        norm_num
      · rw [if_pos (by push_cast; linarith)]
        rw [if_neg (fun h => absurd h.1 (not_le.mpr (by push_cast; linarith)))]
        norm_num

/-- Witness for C8: with lifetime 3 on a unit grid of 8 steps, a unit inflow
at time 0 flows out entirely at step 3. -/
theorem fixed_lifetime_delta_outflow_witness :
    ((0 : ℚ) < 3) ∧ (3 ≤ 8) ∧ (3 < 8) ∧
    inflowDrivenOutflow (survTable (fixedSF 3) (unitTimes 8) 1 .atMiddle)
        (dtLen (unitTimes 8)) (fun m => if m = 0 then 1 else 0) 3
      = if ((3 : ℚ) ≤ (3 : Nat) ∧ ∀ m : Nat, m < 3 → ¬ (3 : ℚ) ≤ (m : ℚ)) then 1 else 0 :=
  ⟨by norm_num, by norm_num, by norm_num,
    fixed_lifetime_delta_outflow 3 8 3 (by norm_num) (by norm_num) (by norm_num)⟩

/-- The simple flow-driven stock changes by the interval-scaled net flow. -/
theorem simple_balance (dt inflow outflow : Nat → ℚ) (j : Nat) :
    stockChange (simpleFlowDrivenStock dt inflow outflow) j
      = (inflow j - outflow j) * dt j := by
  unfold stockChange simpleFlowDrivenStock
  cases j with
  | zero => rw [if_pos rfl, Finset.sum_range_one]; ring
  | succ k => rw [if_neg (Nat.succ_ne_zero k), Nat.succ_sub_one, Finset.sum_range_succ]; ring

/-- The inflow-driven stock changes by the interval-scaled net flow. -/
theorem inflowDriven_balance (S : Nat → Nat → ℚ) (dt inflow : Nat → ℚ) (j : Nat)
    (hdt : dt j ≠ 0) :
    stockChange (inflowDrivenStock S inflow) j
      = (inflow j - inflowDrivenOutflow S dt inflow j) * dt j := by
  unfold stockChange inflowDrivenOutflow inflowDrivenStock
  cases j with
  | zero =>
    rw [if_pos rfl]
    simp only [Finset.sum_range_one, sPrev, if_pos rfl]
    field_simp
    ring
  | succ k =>
    rw [if_neg (Nat.succ_ne_zero k), Nat.succ_sub_one]
    rw [Finset.sum_range_succ (f := fun i => inflow i * S i (k + 1))]
    rw [Finset.sum_range_succ
      (f := fun i => inflow i * (sPrev S dt i (k + 1) - S i (k + 1)))]
    rw [show sPrev S dt (k + 1) (k + 1) = dt (k + 1) from if_pos rfl]
    rw [Finset.sum_congr rfl (fun i hi =>
      show inflow i * (sPrev S dt i (k + 1) - S i (k + 1))
          = inflow i * (S i k - S i (k + 1)) from by
        rw [show sPrev S dt i (k + 1) = S i k from by
          unfold sPrev
          rw [if_neg (Nat.ne_of_gt (Finset.mem_range.mp hi)), Nat.add_sub_cancel]])]
    simp only [mul_sub]
    rw [Finset.sum_sub_distrib]
    field_simp
    ring

/-- A stock series changes like another that agrees with it up to the step. -/
theorem stockChange_congr {f g : Nat → ℚ} (j : Nat) (h : ∀ i, i ≤ j → f i = g i) :
    stockChange f j = stockChange g j := by
  unfold stockChange
  rw [h j le_rfl]
  cases j with
  | zero => rfl
  | succ k => rw [h (k + 1 - 1) (by omega)]

/-- The inflow-driven outflow only depends on the inflows up to the step. -/
theorem outflow_congr (S : Nat → Nat → ℚ) (dt : Nat → ℚ) {f g : Nat → ℚ} (j : Nat)
    (h : ∀ i, i ≤ j → f i = g i) :
    inflowDrivenOutflow S dt f j = inflowDrivenOutflow S dt g j := by
  unfold inflowDrivenOutflow
  congr 1
  exact Finset.sum_congr rfl (fun i hi => by
    rw [h i (Nat.lt_succ_iff.mp (Finset.mem_range.mp hi))])

/-- The stock given to a stock-driven DSM changes by the interval-scaled net
flow of the solved inflow and derived outflow. -/
theorem stockDriven_balance (S : Nat → Nat → ℚ) (dt t : Nat → ℚ) (j : Nat)
    (hdt : dt j ≠ 0) (hdiag : ∀ i, i ≤ j → S i i ≠ 0) :
    stockChange t j
      = (stockDrivenInflow S t j
          - inflowDrivenOutflow S dt (stockDrivenInflow S t) j) * dt j := by
  rw [← inflowDriven_balance S dt (stockDrivenInflow S t) j hdt]
  exact stockChange_congr j (fun i hi => (stockDriven_system S t i (hdiag i hi)).symm)

/-- The inverse-survival-matrix inflows also reproduce the target stock. -/
theorem invertSF_system (S : Nat → Nat → ℚ) (t : Nat → ℚ) (n m : Nat) (hm : m < n)
    (hdiag : ∀ i, i ≤ m → S i i ≠ 0) :
    ∑ i in Finset.range (m + 1), stockDrivenInflowInvertSF S t n i * S i m = t m := by
  unfold stockDrivenInflowInvertSF
  rw [Finset.sum_congr rfl (fun i _ => Finset.sum_mul _ _ _)]
  rw [Finset.sum_comm]
  rw [Finset.sum_congr rfl (fun k _ =>
    show ∑ i in Finset.range (m + 1), invSF S i k * t k * S i m
        = if m = k then t k else 0 from by
      have hsys : inflowDrivenStock S
          (stockDrivenInflow S (fun x => if x = k then (1 : ℚ) else 0)) m
          = (if m = k then (1 : ℚ) else 0) := stockDriven_system S _ m (hdiag m le_rfl)
      unfold inflowDrivenStock at hsys
      calc ∑ i in Finset.range (m + 1), invSF S i k * t k * S i m
          = t k * ∑ i in Finset.range (m + 1),
              stockDrivenInflow S (fun x => if x = k then 1 else 0) i * S i m := by
            rw [Finset.mul_sum]
            exact Finset.sum_congr rfl (fun i _ => by unfold invSF; ring)
        _ = t k * (if m = k then 1 else 0) := by rw [hsys]
        _ = if m = k then t k else 0 := by
              rcases eq_or_ne m k with rfl | hmk
              · simp
              · simp [hmk])]
  rw [Finset.sum_ite_eq]
  rw [if_pos (Finset.mem_range.mpr hm)]

/-- The inverse-matrix formulation equals the sequential solve on every step
inside the modelled horizon. -/
theorem invert_eq_sequential (S : Nat → Nat → ℚ) (t : Nat → ℚ) (n : Nat)
    (hdiag : ∀ i, i < n → S i i ≠ 0) :
    ∀ j, j < n → stockDrivenInflowInvertSF S t n j = stockDrivenInflow S t j := by
  intro j
  induction j using Nat.strong_induction_on with
  | _ j ih =>
    intro hj
    have hA := invertSF_system S t n j hj (fun i hi => hdiag i (lt_of_le_of_lt hi hj))
    have hB : ∑ i in Finset.range (j + 1), stockDrivenInflow S t i * S i j = t j := by
      have hs := stockDriven_system S t j (hdiag j hj)
      unfold inflowDrivenStock at hs
      exact hs
    rw [Finset.sum_range_succ] at hA hB
    rw [Finset.sum_congr rfl (fun i hi => by
      rw [ih i (Finset.mem_range.mp hi)
        (lt_trans (Finset.mem_range.mp hi) hj)])] at hA
    have h2 : stockDrivenInflowInvertSF S t n j * S j j
        = stockDrivenInflow S t j * S j j := by
      have h3 := hA.trans hB.symm
      exact add_left_cancel h3
    exact mul_right_cancel₀ (hdiag j hj) h2

/-- The stock given to the inverse-matrix stock-driven DSM changes by the
interval-scaled net flow of its inflow and derived outflow. -/
theorem invertSF_balance (S : Nat → Nat → ℚ) (dt t : Nat → ℚ) (n j : Nat)
    (hdt : dt j ≠ 0) (hjn : j < n) (hdiag : ∀ i, i < n → S i i ≠ 0) :
    stockChange t j
      = (stockDrivenInflowInvertSF S t n j
          - inflowDrivenOutflow S dt (stockDrivenInflowInvertSF S t n) j) * dt j := by
  have heq : ∀ i, i ≤ j → stockDrivenInflowInvertSF S t n i = stockDrivenInflow S t i :=
    fun i hi => invert_eq_sequential S t n hdiag i (lt_of_le_of_lt hi hjn)
  rw [heq j le_rfl, outflow_congr S dt j heq]
  exact stockDriven_balance S dt t j hdt (fun i hi => hdiag i (lt_of_le_of_lt hi hjn))

/-- C1 (amended): after compute, every Stock variant satisfies the
interval-scaled stock balance: for every per-coordinate series and every time
step j, the stock change equals (inflow j - outflow j) times the interval
length of step j, with the stock before the first step defined as zero; and
check_stock_balance reports exactly the time steps violating this balance.
With all interval lengths equal to one this is the balance of the original
claim. -/
theorem stock_balance_invariant (S : Nat → Nat → ℚ) (dt : Nat → ℚ)
    (inflow outflow target s : Nat → ℚ) (n j m : Nat)
    (hdt : dt j ≠ 0) (hdiag : ∀ i, i < n → S i i ≠ 0) (hjn : j < n) :
    (stockChange (simpleFlowDrivenStock dt inflow outflow) j
        = (inflow j - outflow j) * dt j) ∧
    (stockChange (inflowDrivenStock S inflow) j
        = (inflow j - inflowDrivenOutflow S dt inflow j) * dt j) ∧
    (stockChange target j
        = (stockDrivenInflow S target j
            - inflowDrivenOutflow S dt (stockDrivenInflow S target) j) * dt j) ∧
    (stockChange target j
        = (stockDrivenInflowInvertSF S target n j
            - inflowDrivenOutflow S dt (stockDrivenInflowInvertSF S target n) j) * dt j) ∧
    (m ∈ check_stock_balance dt inflow outflow s n ↔
        (m < n ∧ stockChange s m ≠ (inflow m - outflow m) * dt m)) := by
  refine ⟨simple_balance dt inflow outflow j, inflowDriven_balance S dt inflow j hdt,
    stockDriven_balance S dt target j hdt
      (fun i hi => hdiag i (lt_of_le_of_lt hi hjn)),
    invertSF_balance S dt target n j hdt hjn hdiag, ?_⟩
  simp [check_stock_balance, List.mem_filter, List.mem_range]

/-- Counterexample for C1: on the uneven time grid of the repository howto, a
SimpleFlowDrivenStock with constant unit inflow and zero outflow is a valid
configuration whose computed stock starts at 5, while the claimed unscaled
balance requires stock 0 to equal 0 + 1 - 0; a balance check of the unscaled
condition reports step 0 as violating. -/
theorem stock_balance_counterexample :
    simpleFlowDrivenStock (dtLen times5) (fun _ => 1) (fun _ => 0) 0 = 5 ∧
    ¬ simpleFlowDrivenStock (dtLen times5) (fun _ => 1) (fun _ => 0) 0
        = 0 + (1 : ℚ) - 0 ∧
    check_stock_balance (fun _ => 1) (fun _ => 1) (fun _ => 0)
        (simpleFlowDrivenStock (dtLen times5) (fun _ => 1) (fun _ => 0)) 1 = [0] := by
  have h5 : simpleFlowDrivenStock (dtLen times5) (fun _ => 1) (fun _ => 0) 0 = 5 := by
    norm_num [simpleFlowDrivenStock, Finset.sum_range_one, dtLen, times5, intervalBound,
      List.getD]
  refine ⟨h5, by rw [h5]; norm_num, ?_⟩
  rw [show check_stock_balance (fun _ => 1) (fun _ => 1) (fun _ => 0)
      (simpleFlowDrivenStock (dtLen times5) (fun _ => 1) (fun _ => 0)) 1
      = [0].filter (fun j => decide (stockChange
          (simpleFlowDrivenStock (dtLen times5) (fun _ => 1) (fun _ => 0)) j
          ≠ ((fun _ => (1 : ℚ)) j - (fun _ => (0 : ℚ)) j) * (fun _ => (1 : ℚ)) j)) from rfl]
  rw [List.filter_cons, List.filter_nil]
  rw [if_pos (by
    rw [decide_eq_true_eq]
    unfold stockChange
    rw [if_pos rfl, h5]
    norm_num)]

/-- Witness for C1: on a unit grid with a constant-one survival table, the
simple stock balance holds at step 1 and the balance check characterizes
membership at step 0. -/
theorem stock_balance_invariant_witness :
    ((fun _ : Nat => (1 : ℚ)) 1 ≠ 0) ∧ (1 < 3) ∧
    (stockChange (simpleFlowDrivenStock (fun _ => 1) (fun _ => 1) (fun _ => 0)) 1
        = ((fun _ : Nat => (1 : ℚ)) 1 - (fun _ : Nat => (0 : ℚ)) 1) * (fun _ : Nat => (1 : ℚ)) 1) ∧
    (0 ∈ check_stock_balance (fun _ => 1) (fun _ => 1) (fun _ => 0) (fun _ => 0) 3 ↔
        (0 < 3 ∧ stockChange (fun _ : Nat => (0 : ℚ)) 0
          ≠ ((fun _ : Nat => (1 : ℚ)) 0 - (fun _ : Nat => (0 : ℚ)) 0) * (fun _ : Nat => (1 : ℚ)) 0)) := by
  refine ⟨by norm_num, by norm_num, ?_, ?_⟩
  · exact (stock_balance_invariant (fun _ _ => 1) (fun _ => 1) (fun _ => 1) (fun _ => 0)
      (fun j => (j : ℚ)) (fun _ => 0) 3 1 0 (by norm_num) (fun i _ => one_ne_zero)
      (by norm_num)).1
  · exact (stock_balance_invariant (fun _ _ => 1) (fun _ => 1) (fun _ => 1) (fun _ => 0)
      (fun j => (j : ℚ)) (fun _ => 0) 3 1 0 (by norm_num) (fun i _ => one_ne_zero)
      (by norm_num)).2.2.2.2
